import Mathlib

/-!
Verification of the `sgl` 3-D analytic geometry library.

The solver (`src/sgl/solver.py`) and the relation engine (`src/sgl/calc.py`)
are translated into Lean over a general linear ordered field; the library's
floating point numbers are modelled as exact field elements and the global
tolerance 1e-10 as the exact rational 10⁻¹⁰, following the specification's
description of the tolerance ("null" test: |x| < τ, τ = 1e-10).

Code of the repository that is not under `src/` (`vector.py`, `line.py`) and
the external routine `scipy.linalg.lu` are modelled from the specification;
every such definition carries a doc comment starting `Modelled from the
spec:`.  Everything else is translated directly from the Python source.
-/

namespace Sgl

variable {α : Type} [LinearOrderedField α]

/-- Tolerance constant: the Python source compares against the literal
`1e-10` (solver.py, `null`). -/
def tol (α : Type) [LinearOrderedField α] : α := 1 / 10000000000

/-- Translation of solver.py `null(f)`: `abs(f) < 1e-10`. -/
def nullq (f : α) : Bool := |f| < tol α

/-- Translation of solver.py `nullrow(r)`: `all(map(null, r))`. -/
def nullrow (r : List α) : Bool := r.all nullq

/-- Translation of solver.py `first_nonzero(r)`: index of the first
non-null entry, or `len(r)` when every entry is null.  `List.findIdx`
returns the length when no entry satisfies the predicate, matching the
Python fallthrough. -/
def first_nonzero (r : List α) : ℕ := r.findIdx (fun v => !nullq v)

/-- Modelled from the spec: `solve` calls the external `scipy.linalg.lu`
(not part of this repository); spec §4.1 says the matrix is reduced "to
row-echelon form via Gaussian elimination with pivoting".  `selectPivot c
rows` picks the first row whose entry in column `c` is nonzero and returns
it together with the remaining rows in their original order; `none` when
the column is zero in every row. -/
def selectPivot (c : ℕ) : List (List α) → Option (List α × List (List α))
  | [] => none
  | r :: rs =>
    if r.getD c 0 ≠ 0 then some (r, rs)
    else
      match selectPivot c rs with
      | none => none
      | some (p, others) => some (p, r :: others)

/-- Modelled from the spec: one Gaussian elimination update, subtracting
`(r[c]/p[c])·p` from row `r` so that column `c` of `r` becomes zero. -/
def elimRow (c : ℕ) (p r : List α) : List α :=
  List.zipWith (fun pi ri => ri - r.getD c 0 / p.getD c 0 * pi) p r

/-- Modelled from the spec: Gaussian elimination over the listed columns.
For each column, if some remaining row has a nonzero entry there, that row
becomes the next output row and is eliminated from the others; otherwise
the column is skipped.  Rows that are never chosen as pivots (zero rows
after elimination) end up at the bottom, giving row-echelon form. -/
def gaussAux : List ℕ → List (List α) → List (List α)
  | [], rest => rest
  | c :: cs, rest =>
    match selectPivot c rest with
    | none => gaussAux cs rest
    | some (p, others) => p :: gaussAux cs (others.map (elimRow c p))

/-- Modelled from the spec: full reduction of an augmented matrix to
row-echelon form (stands in for `scipy.linalg.lu(matrix, True)` in
solver.py `solve`). -/
def gauss (m : List (List α)) : List (List α) :=
  gaussAux (List.range (m.headD []).length) m

/-- Translation of solver.py `Solution`: it holds the reduced matrix `s`;
the Python attributes computed in `__init__` are pure functions of `s` and
are given below as functions. -/
structure Solution (α : Type) where
  s : List (List α)
deriving DecidableEq

/-- Translation of `self.varcount = s.shape[1] - 1`. -/
def Solution.varcount (sol : Solution α) : ℕ := (sol.s.headD []).length - 1

/-- Translation of `self._solvable = not any(all(null(coeff) for coeff in
row[:-1]) and not null(row[-1]) for row in s)`. -/
def Solution.solvable (sol : Solution α) : Bool :=
  !(sol.s.any fun row => row.dropLast.all nullq && !nullq (row.getLastD 0))

/-- Translation of `unique_equations = sum(1 for row in s if not
nullrow(row))`. -/
def Solution.uniqueEquations (sol : Solution α) : ℕ :=
  sol.s.countP fun row => !nullrow row

/-- Translation of `self.varargs = self.varcount - unique_equations`; the
Python value is a (possibly negative) integer. -/
def Solution.varargs (sol : Solution α) : ℤ :=
  (sol.varcount : ℤ) - sol.uniqueEquations

/-- Translation of `self.exact = self.varargs == 0`. -/
def Solution.exact (sol : Solution α) : Bool := sol.varargs == 0

/-- Outcome of `Solution.__call__`: the Python method raises
`ValueError("Has no solution")`, raises the count-mismatch `ValueError`
(carrying the expected and received counts), raises `TypeError` when the
arithmetic hits an unassigned `None` entry, or returns the tuple of
values.  An entry of the returned tuple is `none` when the Python tuple
holds `None` (the variable was never assigned). -/
inductive CallRes (α : Type) where
  | noSolution
  | countMismatch (expected : ℤ) (got : ℕ)
  | typeErr
  | ok (vals : List (Option α))
deriving DecidableEq

/-- Translation of the body of the first loop of `Solution.__call__`:
when the row has exactly one non-null coefficient
(`count(lambda i: not null(i), row[:-1]) == 1`), set
`vals[var] = row[-1] / row[var]` where `var = index(..., row[:-1])` is the
position of that coefficient. -/
def scanStep (vals : List (Option α)) (row : List α) : List (Option α) :=
  let cs := row.dropLast
  if cs.countP (fun x => !nullq x) = 1 then
    let var := cs.findIdx fun x => !nullq x
    vals.set var (some (row.getLastD 0 / row.getD var 0))
  else vals

/-- Translation of the first loop of `Solution.__call__` ("Scan for real
solutions"): fold `scanStep` over the rows, top to bottom. -/
def scanReal (s : List (List α)) (vals : List (Option α)) : List (Option α) :=
  s.foldl scanStep vals

/-- Translation of the second loop of `Solution.__call__` ("Fill in the
rest with given values"): iterate `i` from `len(vals)-1` down to `0`,
stopping when `v` is exhausted, and pop the last element of `v` into every
still-`None` slot. -/
def fill : ℕ → List (Option α) → List α → List (Option α)
  | 0, vals, _ => vals
  | i + 1, vals, v =>
    if v.isEmpty then vals
    else
      match vals.getD i none with
      | none => fill i (vals.set i (some (v.getLastD 0))) v.dropLast
      | some _ => fill i vals v

/-- Translation of `sum(-1 * row[j] * vals[j] for j in range(tbd + 1,
len(row) - 1))` in the third loop of `Solution.__call__`; the result is
`none` when some `vals[j]` is still `None` (Python raises `TypeError`). -/
def sumParts (row : List α) (vals : List (Option α)) (tbd : ℕ) : Option α :=
  ((List.range' (tbd + 1) (row.length - 1 - (tbd + 1))).mapM
      (fun j => (vals.getD j none).map fun x => -1 * row.getD j 0 * x)).map
    (fun l => l.sum)

/-- Translation of the third loop of `Solution.__call__`: iterate the rows
bottom-to-top (the caller passes `s.reverse`), skip null rows, and set
`vals[tbd] = (sum + row[-1]) / row[tbd]` where `tbd = first_nonzero(row)`. -/
def backsub : List (List α) → List (Option α) → Option (List (Option α))
  | [], vals => some vals
  | row :: rest, vals =>
    if nullrow row then backsub rest vals
    else
      match sumParts row vals (first_nonzero row) with
      | none => none
      | some acc =>
        backsub rest (vals.set (first_nonzero row)
          (some ((acc + row.getLastD 0) / row.getD (first_nonzero row) 0)))

/-- Translation of `Solution.__call__(*v)`: check solvability, check the
argument count, then run the three resolution loops in order. -/
def Solution.call (sol : Solution α) (v : List α) : CallRes α :=
  if sol.solvable = false then .noSolution
  else if (v.length : ℤ) ≠ sol.varargs then .countMismatch sol.varargs v.length
  else
    let vals := scanReal sol.s (List.replicate sol.varcount none)
    let vals := fill sol.varcount vals v
    match backsub sol.s.reverse vals with
    | none => .typeErr
    | some vals => .ok vals

/-- Translation of solver.py `solve(matrix)`: reduce and wrap in a
`Solution`. -/
def solve (m : List (List α)) : Solution α := ⟨gauss m⟩

/-- A row with exactly one non-null coefficient ("the row fixes a
variable"). -/
def singleCoeff (row : List α) : Bool :=
  row.dropLast.countP (fun x => !nullq x) == 1

/-- The variable fixed by a single-coefficient row: the index of its only
non-null coefficient. -/
def fixVar (row : List α) : ℕ :=
  row.dropLast.findIdx fun x => !nullq x

/-- Number of unresolved entries at positions strictly between `i` and
`n`. -/
def nonesAfter (vals : List (Option α)) (i n : ℕ) : ℕ :=
  (List.range' (i + 1) (n - (i + 1))).countP fun j => (vals.getD j none).isNone

/-- Modelled from the spec: `vector.py` is not under `src/`; the spec's
VectorAlgebra component is "3-component free-vector arithmetic"; a Vector
is "(x, y, z) reals; immutable". -/
structure Vector3 (α : Type) where
  x : α
  y : α
  z : α
deriving DecidableEq

/-- Translation of point.py `Point`: coordinates x, y, z. -/
structure Point3 (α : Type) where
  x : α
  y : α
  z : α
deriving DecidableEq

/-- Modelled from the spec: `line.py` is not under `src/`; the spec's Line
carries a "support vector `sv` (a point, as a vector) and direction vector
`dv`". -/
structure Line3 (α : Type) where
  sv : Vector3 α
  dv : Vector3 α
deriving DecidableEq

/-- Translation of plane.py `_init_pn`: the canonical internal form stores
a point `p` and a normal vector `n`. -/
structure Plane3 (α : Type) where
  p : Point3 α
  n : Vector3 α
deriving DecidableEq

/-- Modelled from the spec: vector addition (VectorAlgebra "add"). -/
def Vector3.add (v w : Vector3 α) : Vector3 α := ⟨v.x + w.x, v.y + w.y, v.z + w.z⟩

/-- Modelled from the spec: vector subtraction (add of the scaled
opposite). -/
def Vector3.sub (v w : Vector3 α) : Vector3 α := ⟨v.x - w.x, v.y - w.y, v.z - w.z⟩

/-- Modelled from the spec: scaling a vector by a field element
(VectorAlgebra "scale"). -/
def Vector3.smul (c : α) (v : Vector3 α) : Vector3 α := ⟨c * v.x, c * v.y, c * v.z⟩

/-- Modelled from the spec: the dot product (VectorAlgebra "dot"; written
`v * w` in the Python source). -/
def Vector3.dot (v w : Vector3 α) : α := v.x * w.x + v.y * w.y + v.z * w.z

/-- Modelled from the spec: the cross product (VectorAlgebra "cross"). -/
def Vector3.cross (v w : Vector3 α) : Vector3 α :=
  ⟨v.y * w.z - v.z * w.y, v.z * w.x - v.x * w.z, v.x * w.y - v.y * w.x⟩

/-- Modelled from the spec: the tolerance-based orthogonality test
(VectorAlgebra "orthogonal-test"): the dot product is null. -/
def Vector3.orthogonal (v w : Vector3 α) : Bool := nullq (v.dot w)

/-- Modelled from the spec: the tolerance-based parallelism test
(VectorAlgebra "parallel-test"): the cross product is the null vector. -/
def Vector3.parallel (v w : Vector3 α) : Bool :=
  nullq (v.cross w).x && nullq (v.cross w).y && nullq (v.cross w).z

/-- Translation of point.py `Point.pv`: the position vector of the
point. -/
def Point3.pv (p : Point3 α) : Vector3 α := ⟨p.x, p.y, p.z⟩

/-- Translation of point.py `Point(Vector)`: the point with the vector's
coordinates. -/
def Point3.ofVec (v : Vector3 α) : Point3 α := ⟨v.x, v.y, v.z⟩

/-- Translation of point.py `Point.__setitem__(item, value)`:
`setattr(self, "xyz"[item], value)`.  Indexing `"xyz"` out of range
raises, modelled by `none`; the mutated point is returned as a value. -/
def Point3.setitem (p : Point3 α) (i : ℕ) (v : α) : Option (Point3 α) :=
  match i with
  | 0 => some { p with x := v }
  | 1 => some { p with y := v }
  | 2 => some { p with z := v }
  | _ => none

/-- Modelled from the spec: `Vector(Point, Point)` (used by calc.py
`distance` for Point/Point); a vector connecting two points. -/
def connect (a b : Point3 α) : Vector3 α := (b.pv).sub a.pv

/-- Translation of plane.py `__contains__` for a `Point`: exact equality
`other.pv() * self.n == self.p.pv() * self.n`. -/
def Plane3.containsPoint (pl : Plane3 α) (q : Point3 α) : Bool :=
  q.pv.dot pl.n == pl.p.pv.dot pl.n

/-- Translation of plane.py `__contains__` for a `Line`:
`Point(other.sv) in self and self.parallel(other)`, where
`GeoBody.parallel` (body.py, not under `src/`) delegates to the
plane/line case of calc.py `parallel`, i.e. the line's direction is
orthogonal to the normal. -/
def Plane3.containsLine (pl : Plane3 α) (l : Line3 α) : Bool :=
  pl.containsPoint (Point3.ofVec l.sv) && l.dv.orthogonal pl.n

/-- Tagged union of the three geometric primitives, over which the calc.py
relations dispatch by `isinstance` tests. -/
inductive GeoObj (α : Type) where
  | pt (p : Point3 α)
  | ln (l : Line3 α)
  | pl (q : Plane3 α)
deriving DecidableEq

/-- Result of calc.py `intersection`: `None`, a `Point`, a `Line`, a
raised solver error, or the `NotImplemented` sentinel. -/
inductive GeoRes (α : Type) where
  | null
  | point (p : Point3 α)
  | line (l : Line3 α)
  | err (e : CallRes α)
  | notImplemented
deriving DecidableEq

/-- Translation of the Line/Line augmented matrix built in calc.py
`intersection`: rows `[a.dv[i], -b.dv[i], b.sv[i] - a.sv[i]]`. -/
def llMatrix (a b : Line3 α) : List (List α) :=
  [[a.dv.x, -b.dv.x, b.sv.x - a.sv.x],
   [a.dv.y, -b.dv.y, b.sv.y - a.sv.y],
   [a.dv.z, -b.dv.z, b.sv.z - a.sv.z]]

/-- Translation of the Line/Line branch of calc.py `intersection`: solve
the 3-row system; `None` when unsolvable; otherwise destructure
`lmb, mu = solution()` (a zero-argument query) and return
`Point(a.sv + lmb * a.dv)`.  A query failure propagates as the raised
error; a `None` inside the returned pair makes `float(lmb)` raise,
modelled by `typeErr`. -/
def intersectionLL (a b : Line3 α) : GeoRes α :=
  let sol := solve (llMatrix a b)
  if sol.solvable = false then .null
  else
    match sol.call [] with
    | .ok [some lmb, some _] => .point (Point3.ofVec (a.sv.add (Vector3.smul lmb a.dv)))
    | .ok _ => .err .typeErr
    | e => .err e

/-- Translation of the Line/Plane branch of calc.py `intersection`: the
whole line when it lies in the plane, `None` when parallel, otherwise the
point at parameter `mu = (b.n * b.p.pv() - b.n * a.sv) / (b.n * a.dv)`.
(The parallel test is the plane/line case of calc.py `parallel`:
`a.dv.orthogonal(b.n)`.) -/
def intersectionLP (a : Line3 α) (b : Plane3 α) : GeoRes α :=
  if b.containsLine a then .line a
  else if a.dv.orthogonal b.n then .null
  else
    let mu := (b.n.dot b.p.pv - b.n.dot a.sv) / b.n.dot a.dv
    .point (Point3.ofVec (a.sv.add (Vector3.smul mu a.dv)))

/-- Translation of the Plane/Plane augmented matrix built in calc.py
`intersection`: rows `list(a.n) + [a.n * a.p.pv()]`. -/
def ppMatrix (a b : Plane3 α) : List (List α) :=
  [[a.n.x, a.n.y, a.n.z, a.n.dot a.p.pv],
   [b.n.x, b.n.y, b.n.z, b.n.dot b.p.pv]]

/-- Translation of the Plane/Plane branch of calc.py `intersection`: solve
the 2-row system; `None` when unsolvable; otherwise build
`p1 = Point(solution(1))` and `p2 = Point(solution(2))` and return
`Line(p1.pv(), p2.pv() - p1.pv())`.  A query failure propagates as the
raised error; `None` entries in a returned tuple make the later vector
arithmetic raise, modelled by `typeErr`. -/
def intersectionPP (a b : Plane3 α) : GeoRes α :=
  let sol := solve (ppMatrix a b)
  if sol.solvable = false then .null
  else
    match sol.call [1], sol.call [2] with
    | .ok [some x1, some y1, some z1], .ok [some x2, some y2, some z2] =>
      .line ⟨⟨x1, y1, z1⟩, ⟨x2 - x1, y2 - y1, z2 - z1⟩⟩
    | .ok _, .ok _ => .err .typeErr
    | .ok _, e => .err e
    | e, _ => .err e

/-- Translation of calc.py `intersection(a, b)`: dispatch on the pair of
primitive kinds; unmatched pairs return `NotImplemented`. -/
def intersectionO : GeoObj α → GeoObj α → GeoRes α
  | .ln a, .ln b => intersectionLL a b
  | .ln a, .pl b => intersectionLP a b
  | .pl a, .ln b => intersectionLP b a
  | .pl a, .pl b => intersectionPP a b
  | _, _ => .notImplemented

/-- Result of a boolean relation (calc.py `parallel` / `orthogonal`): a
boolean or the `NotImplemented` sentinel. -/
inductive BoolRes where
  | val (b : Bool)
  | notImplemented
deriving DecidableEq

/-- Translation of calc.py `parallel(a, b)`. -/
def parallelO : GeoObj α → GeoObj α → BoolRes
  | .ln a, .ln b => .val (a.dv.parallel b.dv)
  | .ln a, .pl b => .val (a.dv.orthogonal b.n)
  | .pl a, .ln b => .val (b.dv.orthogonal a.n)
  | .pl a, .pl b => .val (a.n.parallel b.n)
  | _, _ => .notImplemented

/-- Translation of calc.py `orthogonal(a, b)`. -/
def orthogonalO : GeoObj α → GeoObj α → BoolRes
  | .ln a, .ln b => .val (nullq (a.dv.dot b.dv))
  | .ln a, .pl b => .val (a.dv.parallel b.n)
  | .pl a, .ln b => .val (b.dv.parallel a.n)
  | .pl a, .pl b => .val (a.n.orthogonal b.n)
  | _, _ => .notImplemented

noncomputable section RealGeometry

/-- Modelled from the spec: vector length (VectorAlgebra "length"), the
Euclidean norm √(v·v). -/
def Vector3.length (v : Vector3 ℝ) : ℝ := Real.sqrt (v.dot v)

/-- Modelled from the spec: "normalize" — the vector divided by its own
length. -/
def Vector3.normalized (v : Vector3 ℝ) : Vector3 ℝ := Vector3.smul (v.length)⁻¹ v

/-- Modelled from the spec: "angle-between" (VectorAlgebra), the inverse
cosine of the normalized dot product. -/
def Vector3.vangle (v w : Vector3 ℝ) : ℝ :=
  Real.arccos (v.dot w / (v.length * w.length))

/-- Translation of calc.py `acute(rad)`: "If the given angle is >90°
(pi/2), return the opposite angle". -/
def acute (rad : ℝ) : ℝ :=
  if 0.5 * Real.pi < rad then Real.pi - rad else rad

/-- Result of calc.py `angle`: radians or the `NotImplemented`
sentinel. -/
inductive AngleRes where
  | val (r : ℝ)
  | notImplemented

/-- Translation of calc.py `angle(a, b)`: Line/Line and Plane/Plane take
the acute angle between directions respectively normals; Line/Plane
returns `0.5 * pi` minus the acute direction/normal angle; Plane/Line
delegates with the arguments swapped. -/
def angleO : GeoObj ℝ → GeoObj ℝ → AngleRes
  | .ln a, .ln b => .val (acute (a.dv.vangle b.dv))
  | .ln a, .pl b => .val (0.5 * Real.pi - acute (a.dv.vangle b.n))
  | .pl a, .ln b => .val (0.5 * Real.pi - acute (b.dv.vangle a.n))
  | .pl a, .pl b => .val (acute (a.n.vangle b.n))
  | _, _ => .notImplemented

/-- Result of calc.py `distance`: a scalar, the `NotImplemented` sentinel
(also produced when a `None` intersection is passed back into `distance`),
or a marker for the infinite recursion `distance(a, foot)` runs into when
the intersection returns the very same line. -/
inductive DistRes where
  | val (d : ℝ)
  | notImplemented
  | diverge

/-- Translation of the Point/Point branch of calc.py `distance`: the
length of the connecting vector. -/
def distPP (a b : Point3 ℝ) : ℝ := (connect a b).length

/-- Translation of the Point/Line branch of calc.py `distance`: intersect
the line with the auxiliary plane through the point whose normal is the
line's direction, then take the Point/Point distance to the foot.  When
the intersection returns the line itself, the Python code re-enters
`distance(a, b)` with unchanged arguments and never terminates
(`diverge`); when it returns `None`, `distance(a, None)` falls through
every `isinstance` test and yields `NotImplemented`. -/
def distPointLine (a : Point3 ℝ) (b : Line3 ℝ) : DistRes :=
  match intersectionLP b (Plane3.mk a b.dv) with
  | .point foot => .val (distPP a foot)
  | .line _ => .diverge
  | .null => .notImplemented
  | _ => .notImplemented

/-- Translation of the Point/Plane branch of calc.py `distance`: intersect
the plane with the auxiliary line through the point along the normal, then
take the Point/Point distance to the foot.  A `Line` result feeds back
into the Point/Line branch; a `None` result yields `NotImplemented` as
above. -/
def distPointPlane (a : Point3 ℝ) (b : Plane3 ℝ) : DistRes :=
  match intersectionLP (Line3.mk a.pv b.n) b with
  | .point foot => .val (distPP a foot)
  | .line l => distPointLine a l
  | .null => .notImplemented
  | _ => .notImplemented

/-- Translation of the Line/Line branch of calc.py `distance`:
`abs((b.sv - a.sv) * normale)` with `normale` the normalized cross product
of the two directions. -/
def distLL (a b : Line3 ℝ) : ℝ :=
  |(b.sv.sub a.sv).dot ((a.dv.cross b.dv).normalized)|

/-- Translation of the Line/Plane branch of calc.py `distance`: the
Point/Plane distance from the line's support point when parallel,
otherwise `0.0`. -/
def distLinePlane (a : Line3 ℝ) (b : Plane3 ℝ) : DistRes :=
  if a.dv.orthogonal b.n then distPointPlane (Point3.ofVec a.sv) b
  else .val 0

/-- Translation of calc.py `distance(a, b)`: dispatch on the pair of
primitive kinds, the reversed pairs delegating with swapped arguments;
unmatched pairs (for example Plane/Plane) return `NotImplemented`. -/
def distanceO : GeoObj ℝ → GeoObj ℝ → DistRes
  | .pt a, .pt b => .val (distPP a b)
  | .pt a, .ln b => distPointLine a b
  | .ln b, .pt a => distPointLine a b
  | .ln a, .ln b => .val (distLL a b)
  | .pt a, .pl b => distPointPlane a b
  | .pl b, .pt a => distPointPlane a b
  | .ln a, .pl b => distLinePlane a b
  | .pl b, .ln a => distLinePlane a b
  | .pl _, .pl _ => .notImplemented

end RealGeometry

/-! ### Helper lemmas -/

lemma tol_pos : (0 : α) < tol α := by
  unfold tol; positivity

lemma nullq_zero : nullq (0 : α) = true := by
  simp only [nullq, abs_zero, decide_eq_true_eq]
  exact tol_pos

/-! ### Claims about the solver -/

/-- C1: the spec promises that for every consistent system the Solution,
called with the free-parameter count of values, returns an assignment of
all variables that satisfies every original equation.  The code breaks
this: for the consistent one-equation system `0·x + 1·y + 1·z = 3`
(satisfied e.g. by (0, 1, 2)), whose reduced form has free-parameter count
2, calling with two values returns a tuple whose first entry is the
unassigned `None` — not an assignment of all variables.  (A single-row
matrix is left unchanged by any Gaussian reduction, so this does not
depend on the modelled pivoting strategy.) -/
theorem solve_unresolved_on_consistent_system :
    (0 * (0 : ℚ) + 1 * 1 + 1 * 2 = 3) ∧
    (solve [[(0 : ℚ), 1, 1, 3]]).s = [[(0 : ℚ), 1, 1, 3]] ∧
    (solve [[(0 : ℚ), 1, 1, 3]]).solvable = true ∧
    (solve [[(0 : ℚ), 1, 1, 3]]).varargs = 2 ∧
    (solve [[(0 : ℚ), 1, 1, 3]]).call [1, 1] = .ok [none, some 2, some 1] := by
  with_unfolding_all decide

/-- C3: a Solution is falsy exactly when some row of the reduced matrix
has all coefficients null but a non-null right-hand side, and querying an
unsolvable Solution fails with the "no solution" error. -/
theorem solvable_iff_no_contradiction_row (m : List (List α)) (v : List α) :
    ((solve m).solvable = false ↔
      ∃ row ∈ (solve m).s,
        (∀ c ∈ row.dropLast, |c| < tol α) ∧ ¬(|row.getLastD 0| < tol α)) ∧
    ((solve m).solvable = false → (solve m).call v = .noSolution) := by
  constructor
  · simp [Solution.solvable, nullq, List.any_eq_true, List.all_eq_true]
  · intro h
    simp [Solution.call, h]

/-- Witness for C3 at the contradiction row `0·x + 0·y + 0·z = 1`. -/
theorem solvable_iff_no_contradiction_row_inst :
    (solve [[(0 : ℚ), 0, 0, 1]]).call [] = .noSolution :=
  (solvable_iff_no_contradiction_row [[(0 : ℚ), 0, 0, 1]] []).2
    (by with_unfolding_all decide)

/-- C4 counterexample: the claim says a call with the wrong number of
arguments fails with the count-mismatch error, for every solved system.
For the unsolvable system `0·x + 0·y + 0·z = 1` the free-parameter count
is 2, yet a call with one argument fails with the "no solution" error
instead (the solvability check runs first). -/
theorem unsolvable_wrong_count_raises_no_solution :
    (solve [[(0 : ℚ), 0, 0, 1]]).varargs = 2 ∧
    (solve [[(0 : ℚ), 0, 0, 1]]).call [5] = .noSolution := by
  with_unfolding_all decide

/-- C4 (amended): the free-parameter count equals the variable count minus
the number of rows of the reduced matrix that are not entirely null,
`exact` holds exactly when that count is 0, and calling a *solvable*
Solution with a number of arguments different from the free-parameter
count fails with the count-mismatch error; an unsolvable Solution fails
with the no-solution error regardless of the argument count, because the
solvability check runs first. -/
theorem varargs_exact_count_mismatch (m : List (List α)) (v : List α) :
    (solve m).varargs =
      ((solve m).varcount : ℤ) - ((solve m).s.countP fun row => !nullrow row) ∧
    ((solve m).exact = true ↔ (solve m).varargs = 0) ∧
    ((solve m).solvable = true → (v.length : ℤ) ≠ (solve m).varargs →
      (solve m).call v = .countMismatch (solve m).varargs v.length) ∧
    ((solve m).solvable = false → (solve m).call v = .noSolution) := by
  refine ⟨rfl, ?_, ?_, ?_⟩
  · simp [Solution.exact]
  · intro h1 h2
    simp [Solution.call, h1, h2]
  · intro h
    simp [Solution.call, h]

/-- Witness for C4 at the system `1·x + 0·y = 5` (one free parameter)
called with no arguments. -/
theorem varargs_exact_count_mismatch_inst :
    (solve [[(1 : ℚ), 0, 5]]).call [] =
      .countMismatch (solve [[(1 : ℚ), 0, 5]]).varargs 0 :=
  (varargs_exact_count_mismatch [[(1 : ℚ), 0, 5]] []).2.2.1
    (by with_unfolding_all decide) (by with_unfolding_all decide)

/-! ### Claims about the relation engine dispatch -/

/-- C8: every argument pair whose types are not among a relation's
supported combinations yields the `NotImplemented` sentinel: any pair
involving a Point for `intersection`, `parallel`, `angle` and
`orthogonal` (for example point/point orthogonality), and Plane/Plane for
`distance`. -/
theorem unsupported_pairs_not_implemented :
    (∀ (p : Point3 ℝ) (o : GeoObj ℝ),
      intersectionO (.pt p) o = .notImplemented ∧
      intersectionO o (.pt p) = .notImplemented ∧
      parallelO (.pt p) o = .notImplemented ∧
      parallelO o (.pt p) = .notImplemented ∧
      angleO (.pt p) o = .notImplemented ∧
      angleO o (.pt p) = .notImplemented ∧
      orthogonalO (.pt p) o = .notImplemented ∧
      orthogonalO o (.pt p) = .notImplemented) ∧
    (∀ a b : Plane3 ℝ, distanceO (.pl a) (.pl b) = .notImplemented) := by
  refine ⟨fun p o => ?_, fun a b => rfl⟩
  cases o <;> exact ⟨rfl, rfl, rfl, rfl, rfl, rfl, rfl, rfl⟩

/-! ### Claims about Point -/

/-- C9 counterexample: the claim says no operation of the library changes
a Point's coordinates and the public interface offers no way to mutate
them; but `Point.__setitem__` (point.py) does exactly that: `p[0] = 5`
turns the origin into (5, 0, 0). -/
theorem point_setitem_mutates :
    Point3.setitem (⟨0, 0, 0⟩ : Point3 ℚ) 0 5 = some ⟨5, 0, 0⟩ ∧
    (⟨5, 0, 0⟩ : Point3 ℚ) ≠ ⟨0, 0, 0⟩ := by
  with_unfolding_all decide

/-- C9 (amended): a Point is not immutable: its public interface includes
the mutator `__setitem__`, which assigns the addressed coordinate
("xyz"[item]) to the given value and fails for indices past the third. -/
theorem point_setitem_spec (p : Point3 ℚ) (v : ℚ) :
    p.setitem 0 v = some { p with x := v } ∧
    p.setitem 1 v = some { p with y := v } ∧
    p.setitem 2 v = some { p with z := v } ∧
    ∀ i, 3 ≤ i → p.setitem i v = none := by
  refine ⟨rfl, rfl, rfl, fun i hi => ?_⟩
  match i, hi with
  | n + 3, _ => rfl

/-- Witness for C9's amended claim at index 5. -/
theorem point_setitem_spec_inst :
    Point3.setitem (⟨1, 2, 3⟩ : Point3 ℚ) 5 9 = none :=
  (point_setitem_spec ⟨1, 2, 3⟩ 9).2.2.2 5 (by decide)

/-! ### Claims about Plane/Plane intersection -/

/-- C5 counterexample: the claim says every consistent Plane/Plane system
has exactly one free parameter and `intersection` returns a Line.  Two
coincident planes give a consistent (solvable) system with two free
parameters, and the query `solution(1)` fails with the count-mismatch
error, so `intersection` raises instead of returning a Line or null. -/
theorem coincident_planes_two_free_params :
    (solve (ppMatrix (⟨⟨0, 0, 0⟩, ⟨1, 0, 0⟩⟩ : Plane3 ℚ) ⟨⟨0, 0, 0⟩, ⟨1, 0, 0⟩⟩)).solvable
      = true ∧
    (solve (ppMatrix (⟨⟨0, 0, 0⟩, ⟨1, 0, 0⟩⟩ : Plane3 ℚ) ⟨⟨0, 0, 0⟩, ⟨1, 0, 0⟩⟩)).varargs
      = 2 ∧
    intersectionPP (⟨⟨0, 0, 0⟩, ⟨1, 0, 0⟩⟩ : Plane3 ℚ) ⟨⟨0, 0, 0⟩, ⟨1, 0, 0⟩⟩ =
      .err (.countMismatch 2 1) := by
  with_unfolding_all decide

/-- C5 (amended): `intersection` on two Planes solves the 2-row system of
their implicit equations; when the system is unsolvable it returns null;
it then queries the Solution with the single free-parameter value 1 and
then 2, so when the free-parameter count is not exactly 1 (coincident
planes have two) the query's count-mismatch failure propagates; when both
queries fully resolve all three variables, it returns the Line through
the two resulting points. -/
theorem plane_plane_intersection_cases (a b : Plane3 α) :
    ((solve (ppMatrix a b)).solvable = false → intersectionPP a b = .null) ∧
    ((solve (ppMatrix a b)).solvable = true → (solve (ppMatrix a b)).varargs ≠ 1 →
      intersectionPP a b =
        .err (.countMismatch (solve (ppMatrix a b)).varargs 1)) ∧
    (∀ x1 y1 z1 x2 y2 z2 : α,
      (solve (ppMatrix a b)).call [1] = .ok [some x1, some y1, some z1] →
      (solve (ppMatrix a b)).call [2] = .ok [some x2, some y2, some z2] →
      intersectionPP a b =
        .line ⟨⟨x1, y1, z1⟩, ⟨x2 - x1, y2 - y1, z2 - z1⟩⟩) := by
  refine ⟨fun h => ?_, fun h1 h2 => ?_, fun x1 y1 z1 x2 y2 z2 hc1 hc2 => ?_⟩
  · simp [intersectionPP, h]
  · have hc : (solve (ppMatrix a b)).call [1] =
        .countMismatch (solve (ppMatrix a b)).varargs 1 := by
      simp [Solution.call, h1]
      intro he
      exact absurd he.symm h2
    simp [intersectionPP, h1, hc]
  · have h1 : (solve (ppMatrix a b)).solvable = true := by
      by_contra hn
      rw [Bool.not_eq_true] at hn
      simp [Solution.call, hn] at hc1
    simp [intersectionPP, h1, hc1, hc2]

/-- Witness for C5's amended claim at the planes x = 0 and y = 0, whose
intersection is the z-axis. -/
theorem plane_plane_intersection_cases_inst :
    intersectionPP (⟨⟨0, 0, 0⟩, ⟨1, 0, 0⟩⟩ : Plane3 ℚ) ⟨⟨0, 0, 0⟩, ⟨0, 1, 0⟩⟩ =
      .line ⟨⟨0, 0, 1⟩, ⟨0 - 0, 0 - 0, 2 - 1⟩⟩ :=
  (plane_plane_intersection_cases ⟨⟨0, 0, 0⟩, ⟨1, 0, 0⟩⟩ ⟨⟨0, 0, 0⟩, ⟨0, 1, 0⟩⟩).2.2
    0 0 1 0 0 2 (by with_unfolding_all decide) (by with_unfolding_all decide)

/-! ### Claims about Line/Line intersection -/

lemma elimRow_multiple_zero (d e : α) (hd : d ≠ 0) :
    elimRow 0 [d, -d, 0] [e, -e, 0] = [0, 0, 0] := by
  simp [elimRow, hd, div_mul_cancel₀, mul_neg, mul_zero]

/-- The matrix of two identical lines reduces to a single (possibly null)
row of the shape `[g, -g, 0]` above two zero rows. -/
lemma gauss_same_line (d e f : α) :
    ∃ g : α, gauss [[d, -d, 0], [e, -e, 0], [f, -f, 0]] =
      [[g, -g, 0], [0, 0, 0], [0, 0, 0]] := by
  have hg : gauss [[d, -d, 0], [e, -e, 0], [f, -f, 0]] =
      gaussAux [0, 1, 2] [[d, -d, 0], [e, -e, 0], [f, -f, 0]] := rfl
  rw [hg]
  by_cases hd : d = 0
  · by_cases he : e = 0
    · by_cases hf : f = 0
      · refine ⟨0, ?_⟩
        subst hd; subst he; subst hf
        simp [gaussAux, selectPivot]
      · refine ⟨f, ?_⟩
        subst hd; subst he
        simp [gaussAux, selectPivot, hf, elimRow, zero_div, zero_mul]
    · refine ⟨e, ?_⟩
      subst hd
      simp [gaussAux, selectPivot, he, elimRow_multiple_zero e f he, elimRow,
        zero_div, zero_mul]
  · refine ⟨d, ?_⟩
    simp [gaussAux, selectPivot, hd, elimRow_multiple_zero d e hd,
      elimRow_multiple_zero d f hd]

/-- Solvability and free-parameter count of the reduced identical-line
system: always solvable, and at least one free parameter. -/
lemma pivot_form_fields (g : α) :
    (Solution.mk [[g, -g, 0], [0, 0, 0], [0, 0, 0]]).solvable = true ∧
    1 ≤ (Solution.mk [[g, -g, 0], [0, 0, 0], [0, 0, 0]]).varargs := by
  constructor
  · simp [Solution.solvable, nullq_zero]
  · simp only [Solution.varargs, Solution.varcount, Solution.uniqueEquations]
    simp [List.countP_cons, nullrow, nullq_zero]
    split_ifs <;> norm_num

/-- C10 (amended): for a pair of coincident Lines given with identical
support and direction, the 3-row Line/Line system is solvable with at
least one free parameter, and `intersection` — which queries the Solution
with zero arguments — fails with the count-mismatch error instead of
returning a Point or null.  (For coincident lines given through other
representations the tolerance can instead produce a null result; see the
counterexample.) -/
theorem identical_lines_count_mismatch (sv dv : Vector3 α) :
    (solve (llMatrix ⟨sv, dv⟩ ⟨sv, dv⟩)).solvable = true ∧
    1 ≤ (solve (llMatrix ⟨sv, dv⟩ ⟨sv, dv⟩)).varargs ∧
    intersectionLL (⟨sv, dv⟩ : Line3 α) ⟨sv, dv⟩ =
      .err (.countMismatch (solve (llMatrix ⟨sv, dv⟩ ⟨sv, dv⟩)).varargs 0) := by
  have hm : llMatrix (⟨sv, dv⟩ : Line3 α) ⟨sv, dv⟩ =
      [[dv.x, -dv.x, 0], [dv.y, -dv.y, 0], [dv.z, -dv.z, 0]] := by
    simp [llMatrix, sub_self]
  obtain ⟨g, hgg⟩ := gauss_same_line (α := α) dv.x dv.y dv.z
  have hs : solve (llMatrix (⟨sv, dv⟩ : Line3 α) ⟨sv, dv⟩) =
      Solution.mk [[g, -g, 0], [0, 0, 0], [0, 0, 0]] := by
    rw [solve, hm, hgg]
  obtain ⟨h1, h2⟩ := pivot_form_fields (α := α) g
  have hcall : (Solution.mk [[g, -g, 0], [0, 0, 0], [0, 0, 0]] : Solution α).call [] =
      .countMismatch (Solution.mk [[g, -g, 0], [0, 0, 0], [0, 0, 0]] :
        Solution α).varargs 0 := by
    simp [Solution.call, h1]
    intro he
    omega
  rw [hs]
  refine ⟨h1, h2, ?_⟩
  simp [intersectionLL, hs, h1, hcall]

set_option maxRecDepth 10000 in
/-- C10 counterexample: the claim quantifies over all coincident line
pairs.  These two lines describe the same point set (the second support
point is the first moved by 10²⁰ times the shared direction), but the
direction components are below the tolerance while the support offset is
far above it, so the reduced row has all-null coefficients and a non-null
right-hand side: the system counts as unsolvable and `intersection`
returns null rather than failing with the count-mismatch error. -/
theorem coincident_lines_tolerance_null :
    (⟨⟨1, 0, 0⟩, ⟨1 / 20000000000, 0, 0⟩⟩ : Line3 ℚ).sv =
      (⟨⟨0, 0, 0⟩, ⟨1 / 20000000000, 0, 0⟩⟩ : Line3 ℚ).sv.add
        (Vector3.smul 20000000000
          (⟨⟨0, 0, 0⟩, ⟨1 / 20000000000, 0, 0⟩⟩ : Line3 ℚ).dv) ∧
    (⟨⟨0, 0, 0⟩, ⟨1 / 20000000000, 0, 0⟩⟩ : Line3 ℚ).dv ≠ ⟨0, 0, 0⟩ ∧
    (solve (llMatrix (⟨⟨0, 0, 0⟩, ⟨1 / 20000000000, 0, 0⟩⟩ : Line3 ℚ)
        ⟨⟨1, 0, 0⟩, ⟨1 / 20000000000, 0, 0⟩⟩)).solvable = false ∧
    intersectionLL (⟨⟨0, 0, 0⟩, ⟨1 / 20000000000, 0, 0⟩⟩ : Line3 ℚ)
        ⟨⟨1, 0, 0⟩, ⟨1 / 20000000000, 0, 0⟩⟩ = .null := by
  with_unfolding_all decide

/-! ### Claims about angles -/

lemma vangle_nonneg (v w : Vector3 ℝ) : 0 ≤ v.vangle w :=
  Real.arccos_nonneg _

lemma vangle_le_pi (v w : Vector3 ℝ) : v.vangle w ≤ Real.pi :=
  Real.arccos_le_pi _

lemma acute_mem (r : ℝ) (h0 : 0 ≤ r) (hpi : r ≤ Real.pi) :
    0 ≤ acute r ∧ acute r ≤ Real.pi / 2 := by
  unfold acute
  split_ifs with h
  · constructor <;> [linarith; linarith]
  · constructor <;> [exact h0; linarith [Real.pi_pos]]

lemma acute_vangle_mem (v w : Vector3 ℝ) :
    0 ≤ acute (v.vangle w) ∧ acute (v.vangle w) ≤ Real.pi / 2 :=
  acute_mem _ (vangle_nonneg v w) (vangle_le_pi v w)

/-- C6: for Lines and Planes with nonzero directions and normals, `angle`
reports a value in [0, π/2]: Line/Line and Plane/Plane give the acute
representative of the direction/normal angle (π minus the raw angle when
the raw angle exceeds π/2), and Line/Plane — in either argument order —
gives π/2 minus the acute angle between the line's direction and the
plane's normal. -/
theorem angle_in_first_quadrant (l1 l2 : Line3 ℝ) (p1 p2 : Plane3 ℝ)
    (hl1 : l1.dv ≠ ⟨0, 0, 0⟩) (hl2 : l2.dv ≠ ⟨0, 0, 0⟩)
    (hp1 : p1.n ≠ ⟨0, 0, 0⟩) (hp2 : p2.n ≠ ⟨0, 0, 0⟩) :
    (angleO (.ln l1) (.ln l2) = .val (acute (l1.dv.vangle l2.dv)) ∧
      0 ≤ acute (l1.dv.vangle l2.dv) ∧
      acute (l1.dv.vangle l2.dv) ≤ Real.pi / 2) ∧
    (angleO (.pl p1) (.pl p2) = .val (acute (p1.n.vangle p2.n)) ∧
      0 ≤ acute (p1.n.vangle p2.n) ∧
      acute (p1.n.vangle p2.n) ≤ Real.pi / 2) ∧
    (angleO (.ln l1) (.pl p1) =
        .val (Real.pi / 2 - acute (l1.dv.vangle p1.n)) ∧
      angleO (.pl p1) (.ln l1) =
        .val (Real.pi / 2 - acute (l1.dv.vangle p1.n)) ∧
      0 ≤ Real.pi / 2 - acute (l1.dv.vangle p1.n) ∧
      Real.pi / 2 - acute (l1.dv.vangle p1.n) ≤ Real.pi / 2) ∧
    (∀ r : ℝ, Real.pi / 2 < r → acute r = Real.pi - r) := by
  have hhalf : (0.5 : ℝ) * Real.pi = Real.pi / 2 := by ring_nf
  have hLL := acute_vangle_mem l1.dv l2.dv
  have hPP := acute_vangle_mem p1.n p2.n
  have hLP := acute_vangle_mem l1.dv p1.n
  refine ⟨⟨rfl, hLL⟩, ⟨rfl, hPP⟩, ⟨?_, ?_, ?_, ?_⟩, fun r hr => ?_⟩
  · show AngleRes.val (0.5 * Real.pi - acute (l1.dv.vangle p1.n)) = _
    rw [hhalf]
  · show AngleRes.val (0.5 * Real.pi - acute (l1.dv.vangle p1.n)) = _
    rw [hhalf]
  · linarith [hLP.2]
  · linarith [hLP.1]
  · unfold acute
    rw [if_pos (by linarith)]

/-- Witness for C6 at the x-axis, the line with direction (1, 1, 0), and
the planes with normals (0, 0, 1) and (0, 1, 1). -/
theorem angle_in_first_quadrant_inst :
    0 ≤ acute (Vector3.vangle ⟨1, 0, 0⟩ ⟨1, 1, 0⟩) ∧
    acute (Vector3.vangle (⟨1, 0, 0⟩ : Vector3 ℝ) ⟨1, 1, 0⟩) ≤ Real.pi / 2 :=
  ((angle_in_first_quadrant ⟨⟨0, 0, 0⟩, ⟨1, 0, 0⟩⟩ ⟨⟨0, 0, 0⟩, ⟨1, 1, 0⟩⟩
      ⟨⟨0, 0, 0⟩, ⟨0, 0, 1⟩⟩ ⟨⟨0, 0, 0⟩, ⟨0, 1, 1⟩⟩
      (by simp) (by simp) (by simp) (by simp)).1).2

/-! ### Claims about distances -/

lemma crossRev (v w : Vector3 ℝ) :
    v.cross w = Vector3.smul (-1) (w.cross v) := by
  simp only [Vector3.cross, Vector3.smul, Vector3.mk.injEq]
  refine ⟨by ring, by ring, by ring⟩

lemma subRev (v w : Vector3 ℝ) :
    v.sub w = Vector3.smul (-1) (w.sub v) := by
  simp only [Vector3.sub, Vector3.smul, Vector3.mk.injEq]
  refine ⟨by ring, by ring, by ring⟩

lemma length_neg_one_smul (u : Vector3 ℝ) :
    (Vector3.smul (-1) u).length = u.length := by
  unfold Vector3.length
  congr 1
  simp only [Vector3.dot, Vector3.smul]
  ring

lemma normalized_neg_one_smul (u : Vector3 ℝ) :
    (Vector3.smul (-1) u).normalized = Vector3.smul (-1) u.normalized := by
  unfold Vector3.normalized
  rw [length_neg_one_smul]
  simp only [Vector3.smul, Vector3.mk.injEq]
  refine ⟨by ring, by ring, by ring⟩

lemma dot_neg_one_smul_both (v w : Vector3 ℝ) :
    (Vector3.smul (-1) v).dot (Vector3.smul (-1) w) = v.dot w := by
  simp only [Vector3.dot, Vector3.smul]
  ring

lemma distPP_symm (a b : Point3 ℝ) : distPP a b = distPP b a := by
  unfold distPP connect Vector3.length
  congr 1
  simp only [Vector3.dot, Vector3.sub, Point3.pv]
  ring

lemma distLL_symm (a b : Line3 ℝ) : distLL a b = distLL b a := by
  unfold distLL
  rw [crossRev b.dv a.dv, subRev a.sv b.sv, normalized_neg_one_smul,
    dot_neg_one_smul_both]

/-- C7: `distance` is symmetric on every supported pair: Point/Point and
Line/Line by the algebra of the formulas, and Point/Line, Point/Plane and
Line/Plane because the reversed order delegates to the same computation
with the arguments swapped. -/
theorem distance_symm :
    (∀ a b : Point3 ℝ, distanceO (.pt a) (.pt b) = distanceO (.pt b) (.pt a)) ∧
    (∀ (a : Point3 ℝ) (b : Line3 ℝ),
      distanceO (.pt a) (.ln b) = distanceO (.ln b) (.pt a)) ∧
    (∀ (a : Point3 ℝ) (b : Plane3 ℝ),
      distanceO (.pt a) (.pl b) = distanceO (.pl b) (.pt a)) ∧
    (∀ (a : Line3 ℝ) (b : Plane3 ℝ),
      distanceO (.ln a) (.pl b) = distanceO (.pl b) (.ln a)) ∧
    (∀ a b : Line3 ℝ, distanceO (.ln a) (.ln b) = distanceO (.ln b) (.ln a)) := by
  refine ⟨fun a b => ?_, fun a b => rfl, fun a b => rfl, fun a b => rfl,
    fun a b => ?_⟩
  · show DistRes.val (distPP a b) = DistRes.val (distPP b a)
    rw [distPP_symm]
  · show DistRes.val (distLL a b) = DistRes.val (distLL b a)
    rw [distLL_symm]

/-! ### Resolution order of a query -/

lemma getD_set_self {β : Type} (l : List β) (i : ℕ) (a d : β) (h : i < l.length) :
    (l.set i a).getD i d = a := by
  simp [List.getD_eq_getElem?_getD, List.getElem?_set_self h]

lemma getD_set_ne {β : Type} (l : List β) (i j : ℕ) (a d : β) (h : i ≠ j) :
    (l.set i a).getD j d = l.getD j d := by
  simp [List.getD_eq_getElem?_getD, List.getElem?_set_ne h]

lemma getD_of_le {β : Type} (l : List β) (i : ℕ) (d : β) (h : l.length ≤ i) :
    l.getD i d = d := by
  simp [List.getD_eq_getElem?_getD, List.getElem?_eq_none h]

lemma getLastD_eq_getD {β : Type} (v : List β) (d : β) :
    v.getLastD d = v.getD (v.length - 1) d := by
  rw [List.getLastD_eq_getLast?, List.getLast?_eq_getElem?, List.getD_eq_getElem?_getD]

lemma getD_dropLast {β : Type} (v : List β) (i : ℕ) (d : β) (h : i < v.length - 1) :
    v.dropLast.getD i d = v.getD i d := by
  rw [List.getD_eq_getElem?_getD, List.getD_eq_getElem?_getD,
    List.getElem?_dropLast, if_pos h]

lemma getD_replicate_none (n i : ℕ) :
    (List.replicate n (none : Option α)).getD i none = none := by
  simp [List.getD_eq_getElem?_getD, List.getElem?_replicate]
  split <;> rfl

lemma fixVar_lt (row : List α) (h : singleCoeff row = true) :
    fixVar row < row.dropLast.length := by
  apply List.findIdx_lt_length_of_exists
  have h1 : row.dropLast.countP (fun x => !nullq x) = 1 := by
    simpa [singleCoeff] using h
  have h2 : 0 < row.dropLast.countP (fun x => !nullq x) := by omega
  exact List.countP_pos_iff.mp h2

lemma scanStep_eq (vals : List (Option α)) (row : List α) :
    scanStep vals row =
      if singleCoeff row = true
      then vals.set (fixVar row) (some (row.getLastD 0 / row.getD (fixVar row) 0))
      else vals := by
  unfold scanStep singleCoeff fixVar
  simp only [beq_iff_eq]

lemma scanStep_length (vals : List (Option α)) (row : List α) :
    (scanStep vals row).length = vals.length := by
  rw [scanStep_eq]
  split <;> simp

lemma scanReal_length (s : List (List α)) (vals : List (Option α)) :
    (scanReal s vals).length = vals.length := by
  induction s generalizing vals with
  | nil => rfl
  | cons row rest ih =>
    show (List.foldl scanStep (scanStep vals row) rest).length = _
    rw [show List.foldl scanStep (scanStep vals row) rest =
      scanReal rest (scanStep vals row) from rfl, ih, scanStep_length]

lemma fill_length (n : ℕ) (vals : List (Option α)) (v : List α) :
    (fill n vals v).length = vals.length := by
  induction n generalizing vals v with
  | zero => rfl
  | succ m ih =>
    rw [fill]
    by_cases hv : v.isEmpty
    · rw [if_pos hv]
    · rw [if_neg hv]
      cases hm : vals.getD m none with
      | none => rw [ih]; simp
      | some a => exact ih _ _

lemma backsub_length (rows : List (List α)) (vals w : List (Option α))
    (h : backsub rows vals = some w) : w.length = vals.length := by
  induction rows generalizing vals with
  | nil =>
    simp only [backsub, Option.some.injEq] at h
    rw [← h]
  | cons row rest ih =>
    rw [backsub] at h
    by_cases hnr : nullrow row
    · rw [if_pos hnr] at h
      exact ih _ h
    · rw [if_neg hnr] at h
      cases hs : sumParts row vals (first_nonzero row) with
      | none => rw [hs] at h; cases h
      | some acc =>
        rw [hs] at h
        have := ih _ h
        rwa [List.length_set] at this

/-- Characterization of the first loop: position `i` holds `rhs/coeff`
from the last row with exactly one non-null coefficient at `i`, and is
untouched otherwise. -/
lemma scanReal_getD (s : List (List α)) (vals : List (Option α)) (i : ℕ)
    (hw : ∀ row ∈ s, row.length = vals.length + 1) :
    (scanReal s vals).getD i none =
      (s.reverse.find? fun row => singleCoeff row && (fixVar row == i)).elim
        (vals.getD i none)
        (fun row => some (row.getLastD 0 / row.getD (fixVar row) 0)) := by
  induction s using List.reverseRecOn with
  | nil => rfl
  | append_singleton s' row ih =>
    have hw' : ∀ r ∈ s', r.length = vals.length + 1 := fun r hr => hw r (by simp [hr])
    have hrow : row.length = vals.length + 1 := hw row (by simp)
    rw [scanReal, List.foldl_concat,
      show List.foldl scanStep vals s' = scanReal s' vals from rfl,
      List.reverse_concat, List.find?_cons]
    cases hpred : (singleCoeff row && (fixVar row == i)) with
    | true =>
      have hsc : singleCoeff row = true := (Bool.and_eq_true _ _ |>.mp hpred).1
      have hfx : fixVar row = i :=
        beq_iff_eq.mp (Bool.and_eq_true _ _ |>.mp hpred).2
      rw [scanStep_eq, if_pos hsc, ← hfx, getD_set_self]
      · rfl
      · rw [scanReal_length]
        have hlt := fixVar_lt row hsc
        rw [List.length_dropLast, hrow] at hlt
        omega
    | false =>
      cases hsc : singleCoeff row with
      | false =>
        rw [scanStep_eq, if_neg (by simp [hsc]), ih hw']
      | true =>
        have hfx : (fixVar row == i) = false := by
          rcases Bool.and_eq_false_iff.mp hpred with h | h
          · rw [hsc] at h; cases h
          · exact h
        have hne : fixVar row ≠ i := by simpa using hfx
        rw [scanStep_eq, if_pos hsc, getD_set_ne _ _ _ _ _ hne, ih hw']

lemma nonesAfter_succ (vals : List (Option α)) (i m : ℕ) (h : i < m) :
    nonesAfter vals i (m + 1) =
      nonesAfter vals i m + (if (vals.getD m none).isNone then 1 else 0) := by
  unfold nonesAfter
  have h1 : (m + 1) - (i + 1) = (m - (i + 1)) + 1 := by omega
  rw [h1, List.range'_concat]
  have h2 : (i + 1) + 1 * (m - (i + 1)) = m := by omega
  rw [h2, List.countP_append]
  simp [List.countP_cons]

lemma nonesAfter_set_ge (vals : List (Option α)) (i n k : ℕ) (x : Option α)
    (h : n ≤ k) :
    nonesAfter (vals.set k x) i n = nonesAfter vals i n := by
  unfold nonesAfter
  apply List.countP_congr
  intro j hj
  rw [List.mem_range'_1] at hj
  rw [getD_set_ne _ _ _ _ _ (by omega)]

lemma fill_getD_ge (n : ℕ) (vals : List (Option α)) (v : List α) (i : ℕ)
    (h : n ≤ i) :
    (fill n vals v).getD i none = vals.getD i none := by
  induction n generalizing vals v with
  | zero => rfl
  | succ m ih =>
    rw [fill]
    by_cases hv : v.isEmpty
    · rw [if_pos hv]
    · rw [if_neg hv]
      cases hm : vals.getD m none with
      | none =>
        rw [ih _ _ (by omega), getD_set_ne _ _ _ _ _ (by omega)]
      | some a => exact ih _ _ (by omega)

/-- Characterization of the second loop: an unresolved position receives
a caller value when fewer than `len(v)` unresolved positions lie to its
right; the rightmost unresolved position takes the last value, the next
one the value before it, and so on. -/
lemma fill_getD (n : ℕ) (vals : List (Option α)) (v : List α) (i : ℕ)
    (hn : n ≤ vals.length) :
    (fill n vals v).getD i none =
      if i < n ∧ vals.getD i none = none ∧ nonesAfter vals i n < v.length
      then some (v.getD (v.length - 1 - nonesAfter vals i n) 0)
      else vals.getD i none := by
  induction n generalizing vals v with
  | zero =>
    rw [fill]
    rw [if_neg (by omega)]
  | succ m ih =>
    rw [fill]
    by_cases hv : v.isEmpty
    · rw [if_pos hv]
      rw [List.isEmpty_iff] at hv
      rw [if_neg (by subst hv; simp)]
    · rw [if_neg hv]
      have hvne : v ≠ [] := by
        intro hc
        exact hv (by simp [hc])
      have hvlen : 0 < v.length := List.length_pos.mpr hvne
      cases hm : vals.getD m none with
      | some a =>
        rw [ih _ _ (by omega)]
        rcases Nat.lt_trichotomy i m with hi | hi | hi
        · have hna : nonesAfter vals i (m + 1) = nonesAfter vals i m := by
            rw [nonesAfter_succ _ _ _ hi, hm]
            simp
          rw [hna]
          have hiff : (i < m ∧ vals.getD i none = none ∧
              nonesAfter vals i m < v.length) ↔
              (i < m + 1 ∧ vals.getD i none = none ∧
              nonesAfter vals i m < v.length) := by
            constructor
            · rintro ⟨h1, h2, h3⟩; exact ⟨by omega, h2, h3⟩
            · rintro ⟨h1, h2, h3⟩; exact ⟨by omega, h2, h3⟩
          split_ifs with hc1 hc2 hc2
          · rfl
          · exact absurd (hiff.mp hc1) hc2
          · exact absurd (hiff.mpr hc2) hc1
          · rfl
        · subst hi
          rw [if_neg (by omega), if_neg (by rw [hm]; rintro ⟨-, hc, -⟩; cases hc)]
        · rw [if_neg (by omega), if_neg (by omega)]
      | none =>
        have hmlt : m < vals.length := by omega
        rcases Nat.lt_trichotomy i m with hi | hi | hi
        · -- interior position: recurse on the updated state
          rw [ih _ _ (by simp [List.length_set]; omega)]
          have hset_i : (vals.set m (some (v.getLastD 0))).getD i none =
              vals.getD i none := getD_set_ne _ _ _ _ _ (by omega)
          have hset_n : nonesAfter (vals.set m (some (v.getLastD 0))) i m =
              nonesAfter vals i m := nonesAfter_set_ge _ _ _ _ _ (le_refl m)
          have hsucc : nonesAfter vals i (m + 1) = nonesAfter vals i m + 1 := by
            rw [nonesAfter_succ _ _ _ hi, hm]
            simp
          rw [hset_i, hset_n]
          have hdrop : v.dropLast.length = v.length - 1 := List.length_dropLast v
          have hiff : (i < m ∧ vals.getD i none = none ∧
              nonesAfter vals i m < v.dropLast.length) ↔
              (i < m + 1 ∧ vals.getD i none = none ∧
              nonesAfter vals i (m + 1) < v.length) := by
            rw [hsucc, hdrop]
            constructor
            · rintro ⟨h1, h2, h3⟩; exact ⟨by omega, h2, by omega⟩
            · rintro ⟨h1, h2, h3⟩; exact ⟨by omega, h2, by omega⟩
          split_ifs with hc1 hc2 hc2
          · -- both fire: values agree
            congr 1
            rw [hsucc, hdrop]
            rw [getD_dropLast]
            · congr 1
              omega
            · rcases hc1 with ⟨-, -, h3⟩
              rw [hdrop] at h3
              omega
          · exact absurd (hiff.mp hc1) hc2
          · exact absurd (hiff.mpr hc2) hc1
          · rfl
        · -- the processed position itself
          subst hi
          rw [fill_getD_ge _ _ _ _ (le_refl i)]
          rw [getD_set_self _ _ _ _ hmlt]
          have hz : nonesAfter vals i (i + 1) = 0 := by
            unfold nonesAfter
            have : (i + 1) - (i + 1) = 0 := by omega
            rw [this]
            rfl
          rw [if_pos ⟨by omega, hm, by rw [hz]; omega⟩, hz]
          rw [getLastD_eq_getD]
          simp
        · -- positions right of the window are untouched
          rw [fill_getD_ge _ _ _ _ (by omega), getD_set_ne _ _ _ _ _ (by omega),
            if_neg (by omega)]

lemma mapM_map_getD (l : List ℕ) (vals : List (Option α)) (g : ℕ → α → α)
    (h : ∀ j ∈ l, (vals.getD j none).isSome) :
    (l.mapM fun j => (vals.getD j none).map (g j)) =
      some (l.map fun j => g j ((vals.getD j none).getD 0)) := by
  induction l with
  | nil => rfl
  | cons j t ih =>
    obtain ⟨x, hx⟩ := Option.isSome_iff_exists.mp (h j (by simp))
    have hx' : vals[j]?.getD none = some x := by
      rw [← List.getD_eq_getElem?_getD]; exact hx
    rw [List.mapM_cons, hx, ih (fun a ha => h a (by simp [ha]))]
    simp [hx, hx']

lemma sum_map_neg_one_mul (l : List ℕ) (f : ℕ → α) :
    (l.map fun j => -1 * f j).sum = -((l.map f).sum) := by
  induction l with
  | nil => simp
  | cons a t ih =>
    simp only [List.map_cons, List.sum_cons, ih]
    ring

/-- When every entry strictly right of the leading index is resolved, the
Python generator sum computes and equals the negated sum of
`coeff_j · val_j`. -/
lemma sumParts_spec (row : List α) (vals : List (Option α)) (tbd : ℕ)
    (h : ∀ j ∈ List.range' (tbd + 1) (row.length - 1 - (tbd + 1)),
      (vals.getD j none).isSome) :
    sumParts row vals tbd =
      some (-(((List.range' (tbd + 1) (row.length - 1 - (tbd + 1))).map
        fun j => row.getD j 0 * (vals.getD j none).getD 0).sum)) := by
  unfold sumParts
  rw [mapM_map_getD _ _ _ h]
  simp only [Option.map_some']
  congr 1
  rw [show (fun j => -1 * row.getD j 0 * ((vals.getD j none).getD 0)) =
    (fun j => -1 * (row.getD j 0 * ((vals.getD j none).getD 0))) from
      funext fun j => by ring]
  rw [sum_map_neg_one_mul]

/-- Characterization of one step of the third loop: a non-null row whose
right-hand variables are all resolved assigns its leading variable
`(RHS − Σ coeff_j · val_j) / coeff_leading` and back-substitution
continues with the next row up. -/
lemma backsub_cons (row : List α) (rest : List (List α)) (vals : List (Option α))
    (hnr : nullrow row = false)
    (hres : ∀ j ∈ List.range' (first_nonzero row + 1)
        (row.length - 1 - (first_nonzero row + 1)),
      (vals.getD j none).isSome) :
    backsub (row :: rest) vals =
      backsub rest (vals.set (first_nonzero row)
        (some ((row.getLastD 0 -
            ((List.range' (first_nonzero row + 1)
                (row.length - 1 - (first_nonzero row + 1))).map
              fun j => row.getD j 0 * (vals.getD j none).getD 0).sum) /
          row.getD (first_nonzero row) 0))) := by
  rw [backsub, if_neg (by simp [hnr]), sumParts_spec _ _ _ hres]
  dsimp only
  rw [neg_add_eq_sub]

/-- C2 counterexample: the claim says the call returns an ordered tuple
of all n resolved values.  For the solvable system `0·x + 1·y + 1·z = 3`
with two free parameters, querying with two values leaves the first
variable unresolved (`None` in the Python tuple): the caller value
assigned to y in the second phase lands on the row's leading variable and
is overwritten by back-substitution, while x never receives a value. -/
theorem call_leaves_variable_unresolved :
    (solve [[(0 : ℚ), 1, 1, 3]]).solvable = true ∧
    (solve [[(0 : ℚ), 1, 1, 3]]).varargs = 2 ∧
    (solve [[(0 : ℚ), 1, 1, 3]]).call [1, 1] = .ok [none, some 2, some 1] ∧
    none ∈ [none, some (2 : ℚ), some 1] := by
  with_unfolding_all decide

/-- C2 (amended): querying a solvable Solution with the correct number of
free-parameter values resolves variables in three ordered phases — (a)
the call runs the single-coefficient scan, then the caller-value fill,
then bottom-to-top back-substitution, and wraps the final state; (b)
first phase: a variable holds RHS/coefficient from the last row with
exactly one non-null coefficient at its position, else stays unresolved;
(c) second phase: caller-supplied values fill unresolved positions from
the rightmost leftwards, the last value first, until the values run out;
(d) third phase: each non-null row, processed bottom to top, sets its
leading variable to (RHS − Σ coeff·value over positions strictly right of
it) / leading coefficient, once those positions are resolved; (e) the
returned tuple has exactly n entries — but an entry can remain unresolved
(`None`) when a free column lies left of a leading column. -/
theorem call_resolution_order (sol : Solution α) (v : List α)
    (hw : ∀ row ∈ sol.s, row.length = sol.varcount + 1) :
    (sol.solvable = true → (v.length : ℤ) = sol.varargs →
      sol.call v =
        ((backsub sol.s.reverse
            (fill sol.varcount
              (scanReal sol.s (List.replicate sol.varcount none)) v)).elim
          CallRes.typeErr CallRes.ok)) ∧
    (∀ i : ℕ,
      (scanReal sol.s (List.replicate sol.varcount none)).getD i none =
        (sol.s.reverse.find? fun row => singleCoeff row && (fixVar row == i)).elim
          none (fun row => some (row.getLastD 0 / row.getD (fixVar row) 0))) ∧
    (∀ (vals : List (Option α)) (i : ℕ),
      (fill vals.length vals v).getD i none =
        if i < vals.length ∧ vals.getD i none = none ∧
            nonesAfter vals i vals.length < v.length
        then some (v.getD (v.length - 1 - nonesAfter vals i vals.length) 0)
        else vals.getD i none) ∧
    (∀ (row : List α) (rest : List (List α)) (vals : List (Option α)),
      nullrow row = false →
      (∀ j ∈ List.range' (first_nonzero row + 1)
          (row.length - 1 - (first_nonzero row + 1)),
        (vals.getD j none).isSome) →
      backsub (row :: rest) vals =
        backsub rest (vals.set (first_nonzero row)
          (some ((row.getLastD 0 -
              ((List.range' (first_nonzero row + 1)
                  (row.length - 1 - (first_nonzero row + 1))).map
                fun j => row.getD j 0 * (vals.getD j none).getD 0).sum) /
            row.getD (first_nonzero row) 0)))) ∧
    (∀ w, sol.call v = .ok w → w.length = sol.varcount) := by
  refine ⟨fun h1 h2 => ?_, fun i => ?_, fun vals i => ?_,
    fun row rest vals hnr hres => backsub_cons row rest vals hnr hres,
    fun w hwc => ?_⟩
  · cases hb : backsub sol.s.reverse
        (fill sol.varcount (scanReal sol.s (List.replicate sol.varcount none)) v) <;>
      simp [Solution.call, h1, h2, hb]
  · have := scanReal_getD sol.s (List.replicate sol.varcount none) i
      (by simpa using hw)
    rw [this, getD_replicate_none]
  · exact fill_getD vals.length vals v i (le_refl _)
  · by_cases h1 : sol.solvable = false
    · simp [Solution.call, h1] at hwc
    · rw [Bool.not_eq_false] at h1
      by_cases h2 : (v.length : ℤ) = sol.varargs
      · cases hb : backsub sol.s.reverse
            (fill sol.varcount (scanReal sol.s (List.replicate sol.varcount none)) v) with
        | none => simp [Solution.call, h1, h2, hb] at hwc
        | some w' =>
          simp only [Solution.call, h1, h2, hb] at hwc
          simp at hwc
          rw [← hwc]
          rw [backsub_length _ _ _ hb, fill_length, scanReal_length,
            List.length_replicate]
      · simp [Solution.call, h1, h2] at hwc

/-- Witness for C2's amended claim: the query of the reduced system
`0·x + y + z = 3` returns a tuple with exactly `varcount` entries. -/
theorem call_resolution_order_inst :
    [Option.none, some (2 : ℚ), some 1].length =
      (solve [[(0 : ℚ), 1, 1, 3]]).varcount :=
  (call_resolution_order (solve [[(0 : ℚ), 1, 1, 3]]) [1, 1]
      (by with_unfolding_all decide)).2.2.2.2
    [none, some 2, some 1] (by with_unfolding_all decide)

end Sgl
